import Mathlib

/-!
Verification development for the crypto-lab OHLCV pipeline core.

The definitions below are a shallow embedding of the repository's Python
modules:

* `crypto_lab/lab_core/qc/qc_v0.py`            — quality-control battery
* `crypto_lab/lab_core/loader/ccxt_loader_v0.py` — `normalize_to_contract`
* `crypto_lab/lab_core/aggregator/aggregator_v0.py` — partition merge
* `crypto_lab/lab_core/pipeline/history_v1.py` — resumable download loop

A pandas `DataFrame` is modelled as a list of canonical rows together with
its column/dtype metadata (`DataFrame` below).  Prices and volumes are
modelled as rationals: every check in the source compares them (to each
other or to zero) and never does arithmetic on them, so any linearly
ordered field is a faithful model of the float64 comparisons involved.
Timestamps are (mathematical) integers; the source keeps them as int64
epoch-milliseconds and no claim touches 64-bit overflow.
-/

namespace CryptoLab

/-- One OHLCV row of the data contract.  The field `open_` models the
`open` column (`open` is a Lean keyword). -/
structure Row where
  exchange : String
  symbol : String
  timeframe : String
  timestamp : Int
  open_ : Rat
  high : Rat
  low : Rat
  close : Rat
  volume : Rat
deriving DecidableEq, Repr

/-- The four-part deduplication key `(exchange, symbol, timeframe, timestamp)`. -/
def Row.key (r : Row) : String × String × String × Int :=
  (r.exchange, r.symbol, r.timeframe, r.timestamp)

/-- The pandas column dtypes distinguished by `qc_v0._check_dtypes`. -/
inductive Dtype
  | int64
  | float64
  | object
deriving DecidableEq, Repr

/-- Model of a pandas DataFrame holding OHLCV data: its column metadata
(name and dtype, in column order) plus its rows.  Row indices are the
positions `0, 1, 2, ...` (the default RangeIndex all pipeline tables use). -/
structure DataFrame where
  columns : List (String × Dtype)
  rows : List Row
deriving DecidableEq, Repr

/-- `EXPECTED_COLUMNS` from `qc_v0.py`. -/
def EXPECTED_COLUMNS : List String :=
  ["exchange", "symbol", "timeframe", "timestamp", "open", "high", "low", "close", "volume"]

/-- Column metadata of a table that satisfies the data contract
(string identifiers, int64 timestamp, float64 prices/volume). -/
def canonicalColumns : List (String × Dtype) :=
  [("exchange", Dtype.object), ("symbol", Dtype.object), ("timeframe", Dtype.object),
   ("timestamp", Dtype.int64), ("open", Dtype.float64), ("high", Dtype.float64),
   ("low", Dtype.float64), ("close", Dtype.float64), ("volume", Dtype.float64)]

/-- `TIMEFRAME_TO_MS` from `qc_v0.py`: timeframe identifier → step in ms. -/
def TIMEFRAME_TO_MS : List (String × Int) :=
  [("1m", 60000), ("3m", 180000), ("5m", 300000), ("15m", 900000), ("30m", 1800000),
   ("1h", 3600000), ("2h", 7200000), ("4h", 14400000), ("6h", 21600000), ("8h", 28800000),
   ("12h", 43200000), ("1d", 86400000)]

/-- Dtype of a named column (`df[c].dtype`); `none` models a `KeyError`. -/
def colDtype (df : DataFrame) (c : String) : Option Dtype :=
  df.columns.lookup c

/-- `qc_v0._check_structure`: column names, order and count match the contract. -/
def _check_structure (df : DataFrame) : Bool :=
  decide (df.columns.map Prod.fst = EXPECTED_COLUMNS)

/-- `qc_v0._check_dtypes`: int64 timestamp, float64 price/volume columns,
object string columns; a missing column (KeyError) yields `false`. -/
def _check_dtypes (df : DataFrame) : Bool :=
  decide (colDtype df "timestamp" = some Dtype.int64)
    && (["open", "high", "low", "close", "volume"].all fun c =>
          decide (colDtype df c = some Dtype.float64))
    && (["exchange", "symbol", "timeframe"].all fun c =>
          decide (colDtype df c = some Dtype.object))

/-- Positions (starting at `i`) of the rows satisfying `p`, in ascending
order; this is `df.index[mask].tolist()` for the boolean mask `p`. -/
def detectAux (p : Row → Bool) : Nat → List Row → List Nat
  | _, [] => []
  | i, r :: rs => if p r then i :: detectAux p (i + 1) rs else detectAux p (i + 1) rs

/-- Number of rows of `rows` sharing the key `k`. -/
def countKey (rows : List Row) (k : String × String × String × Int) : Nat :=
  rows.countP fun s => decide (s.key = k)

/-- `qc_v0._detect_duplicates`: `df.duplicated(subset=key, keep=False)`
marks every row whose full key occurs at least twice in the table. -/
def _detect_duplicates (df : DataFrame) : List Nat :=
  if df.rows = [] then []
  else detectAux (fun r => decide (2 ≤ countKey df.rows r.key)) 0 df.rows

/-- `qc_v0._infer_timeframe_ms`: the step for the single distinct timeframe
value of the table, `none` when the table is empty, mixed, or unknown. -/
def _infer_timeframe_ms (df : DataFrame) : Option Int :=
  match df.rows with
  | [] => none
  | r :: rs =>
    if rs.all (fun s => decide (s.timeframe = r.timeframe)) then
      TIMEFRAME_TO_MS.lookup r.timeframe
    else none

/-- The `while expected < cur` loop of `_detect_missing_timestamps`:
emit `expected, expected+step, ...` while `expected < cur`.  The loop in
the source advances by `step ≥ 1` each iteration, so `(cur - prev).toNat`
fuel (as supplied at the call site) suffices for it to stop by its own
condition; `fillLoop_eq_gridBetween` below proves the closed form. -/
def fillLoop (step cur : Int) : Int → Nat → List Int
  | _, 0 => []
  | expected, fuel + 1 =>
    if expected < cur then expected :: fillLoop step cur (expected + step) fuel else []

/-- `qc_v0._detect_missing_timestamps`: sort the timestamps, and for each
adjacent pair with gap above the inferred step, emit the absent grid
points strictly in between; empty when no step can be inferred. -/
def _detect_missing_timestamps (df : DataFrame) : List Int :=
  if df.rows = [] then []
  else
    match _infer_timeframe_ms df with
    | none => []
    | some step =>
      let ts := List.insertionSort (fun a b : Int => a ≤ b) (df.rows.map (·.timestamp))
      (ts.zip ts.tail).flatMap fun pc =>
        if step < pc.2 - pc.1 then fillLoop step pc.2 (pc.1 + step) ((pc.2 - pc.1).toNat)
        else []

/-- The `neg_mask` of `qc_v0`: some of open/high/low/close/volume is negative. -/
def rowNegative (r : Row) : Bool :=
  decide (r.open_ < 0) || decide (r.high < 0) || decide (r.low < 0)
    || decide (r.close < 0) || decide (r.volume < 0)

/-- The `dirty_mask` of `qc_v0`: OHLC consistency violated. -/
def rowDirty (r : Row) : Bool :=
  decide (r.low > r.high) || decide (r.open_ > r.high) || decide (r.open_ < r.low)
    || decide (r.close > r.high) || decide (r.close < r.low)

/-- `qc_v0._detect_dirty_prices`: dirty rows, excluding rows already
flagged negative (`dirty_mask & ~neg_mask`). -/
def _detect_dirty_prices (df : DataFrame) : List Nat :=
  if df.rows = [] then []
  else detectAux (fun r => rowDirty r && !rowNegative r) 0 df.rows

/-- `qc_v0._detect_negative_values`. -/
def _detect_negative_values (df : DataFrame) : List Nat :=
  if df.rows = [] then []
  else detectAux rowNegative 0 df.rows

/-- The result dictionary of `run_qc_v0`. -/
structure QCReport where
  structure_ok : Bool
  dtype_ok : Bool
  duplicates : Nat
  missing_timestamps : List Int
  dirty_price_rows : List Nat
  negative_values : List Nat
  summary : String
deriving DecidableEq, Repr

/-- `qc_v0.run_qc_v0`: assemble the report (the summary string is the
concatenation of the booleans and counts, as in the source's f-string). -/
def run_qc_v0 (df : DataFrame) : QCReport :=
  let structureOk := _check_structure df
  let dtypeOk := _check_dtypes df
  let duplicateIndices := _detect_duplicates df
  let missingTimestamps := _detect_missing_timestamps df
  let dirtyPriceRows := _detect_dirty_prices df
  let negativeValues := _detect_negative_values df
  { structure_ok := structureOk
    dtype_ok := dtypeOk
    duplicates := duplicateIndices.length
    missing_timestamps := missingTimestamps
    dirty_price_rows := dirtyPriceRows
    negative_values := negativeValues
    summary := "structure_ok=" ++ toString structureOk
      ++ ", dtype_ok=" ++ toString dtypeOk
      ++ ", duplicates=" ++ toString duplicateIndices.length
      ++ ", missing_timestamps=" ++ toString missingTimestamps.length
      ++ ", dirty_price_rows=" ++ toString dirtyPriceRows.length
      ++ ", negative_values=" ++ toString negativeValues.length }

/-- One raw ccxt candle `[timestamp_ms, open, high, low, close, volume]`
(the timestamp after the loader's `astype("int64")` cast). -/
structure RawCandle where
  ts : Int
  o : Rat
  h : Rat
  l : Rat
  c : Rat
  v : Rat
deriving DecidableEq, Repr

/-- `ccxt_loader_v0.normalize_to_contract`: an empty batch yields the empty
frame built by `pd.DataFrame(columns=...)`, whose columns all carry the
default `object` dtype (no casting happens on that path); a non-empty
batch is cast to the contract dtypes, with the constant string columns
inserted in front. -/
def normalize_to_contract (raw_candles : List RawCandle)
    (exchange_name symbol timeframe : String) : DataFrame :=
  match raw_candles with
  | [] =>
    { columns := EXPECTED_COLUMNS.map fun c => (c, Dtype.object)
      rows := [] }
  | _ :: _ =>
    { columns := canonicalColumns
      rows := raw_candles.map fun cdl =>
        { exchange := exchange_name, symbol := symbol, timeframe := timeframe
          timestamp := cdl.ts, open_ := cdl.o, high := cdl.h, low := cdl.l
          close := cdl.c, volume := cdl.v } }

/-- Ordering of rows by timestamp, the sort key of `_sort_by_timestamp`. -/
def tsLe (a b : Row) : Prop := a.timestamp ≤ b.timestamp

instance : DecidableRel tsLe := fun a b =>
  inferInstanceAs (Decidable (a.timestamp ≤ b.timestamp))

instance : IsTotal Row tsLe := ⟨fun a b => le_total a.timestamp b.timestamp⟩

instance : IsTrans Row tsLe := ⟨fun _ _ _ h1 h2 => le_trans h1 h2⟩

/-- `aggregator_v0._sort_by_timestamp`: sort by timestamp and reset the
index; left unchanged for an empty frame or a frame without the column. -/
def _sort_by_timestamp (df : DataFrame) : DataFrame :=
  if df.rows = [] ∨ "timestamp" ∉ df.columns.map Prod.fst then df
  else { df with rows := List.insertionSort tsLe df.rows }

/-- The `key_cols` list of `aggregator_v0._deduplicate_df`. -/
def KEY_COLS : List String := ["exchange", "symbol", "timeframe", "timestamp"]

/-- Helper for `dedupByKey`: drop every row whose key was already seen. -/
def dedupAux (seen : List (String × String × String × Int)) : List Row → List Row
  | [] => []
  | r :: rs =>
    if r.key ∈ seen then dedupAux seen rs
    else r :: dedupAux (r.key :: seen) rs

/-- `df.drop_duplicates(subset=key_cols, keep="first")`: keep the first
occurrence of every four-part key, in order. -/
def dedupByKey (l : List Row) : List Row :=
  dedupAux [] l

/-- `aggregator_v0._deduplicate_df`: deduplicate by the four-part key,
untouched when the frame is empty or a key column is missing. -/
def _deduplicate_df (df : DataFrame) : DataFrame :=
  if df.rows = [] then df
  else if ∀ c ∈ KEY_COLS, c ∈ df.columns.map Prod.fst then
    { df with rows := dedupByKey df.rows }
  else df

/-- The `sorted(set(dirty + negative))` of `_drop_dirty_rows`. -/
def badIndices (dirty negative : List Nat) : List Nat :=
  List.insertionSort (fun a b : Nat => a ≤ b) ((dirty ++ negative).dedup)

/-- `df.drop(index=bad, errors="ignore").reset_index(drop=True)`: keep the
rows whose position (counted from `i`) is not listed in `bad`. -/
def dropRowsFrom (bad : List Nat) : Nat → List Row → List Row
  | _, [] => []
  | i, r :: rs =>
    if i ∈ bad then dropRowsFrom bad (i + 1) rs
    else r :: dropRowsFrom bad (i + 1) rs

/-- `aggregator_v0._drop_dirty_rows`: drop the union of
`dirty_price_rows` and `negative_values` of the given QC report;
returns the frame unchanged when it is empty or both lists are empty. -/
def _drop_dirty_rows (df : DataFrame) (qc_report : QCReport) : DataFrame :=
  if df.rows = [] then df
  else if qc_report.dirty_price_rows = [] ∧ qc_report.negative_values = [] then df
  else { df with
    rows := dropRowsFrom
      (badIndices qc_report.dirty_price_rows qc_report.negative_values) 0 df.rows }

/-- The result dictionary of `aggregate_ohlcv_v0`. -/
structure AggregateResult where
  df : DataFrame
  files_read : List String
  qc_before_clean : Option QCReport
  qc_after_clean : Option QCReport
deriving DecidableEq, Repr

/-- Ordering of partition files by path, the `sorted(...)` of
`_discover_parquet_files` (lexicographic path order). -/
def nameLe (a b : String × List Row) : Prop := a.1 ≤ b.1

instance : DecidableRel nameLe := fun a b =>
  inferInstanceAs (Decidable (a.1 ≤ b.1))

instance : IsTotal (String × List Row) nameLe := ⟨fun a b => le_total a.1 b.1⟩

instance : IsTrans (String × List Row) nameLe := ⟨fun _ _ _ h1 h2 => le_trans h1 h2⟩

/-- Steps 2-6 of `aggregator_v0.aggregate_ohlcv_v0`, after file discovery:
read the partitions in sorted path order, concatenate, sort by timestamp,
deduplicate, optionally run QC and drop the flagged rows, optionally re-run
QC on the cleaned table.  A partition is a pair (file path, rows); every
partition file is written by the pipeline with the contract schema, so the
combined frame carries `canonicalColumns`. -/
def aggregateCore (partitions : List (String × List Row))
    (drop_dirty recheck_qc : Bool) : AggregateResult :=
  let sortedParts := List.insertionSort nameLe partitions
  let combined : DataFrame :=
    { columns := canonicalColumns, rows := (sortedParts.map Prod.snd).flatten }
  let df1 := _sort_by_timestamp combined
  let df2 := _deduplicate_df df1
  let step45 : Option QCReport × DataFrame :=
    if drop_dirty || recheck_qc then
      let rep := run_qc_v0 df2
      (some rep, if drop_dirty then _drop_dirty_rows df2 rep else df2)
    else (none, df2)
  let qcAfter := if recheck_qc then some (run_qc_v0 step45.2) else none
  { df := step45.2
    files_read := sortedParts.map Prod.fst
    qc_before_clean := step45.1
    qc_after_clean := qcAfter }

/-- `aggregator_v0.aggregate_ohlcv_v0`, with the filesystem made explicit:
`dirExists` is whether the expected partition directory exists, and
`partitions` is the glob result under it (path and contents of each
parquet file).  `_discover_parquet_files` raises `FileNotFoundError`
(modelled as `Except.error`) when the directory is absent or holds no
parquet files; otherwise the merge proceeds on the discovered files. -/
def aggregate_ohlcv_v0 (dirExists : Bool) (partitions : List (String × List Row))
    (drop_dirty recheck_qc : Bool) : Except String AggregateResult :=
  if dirExists = false then Except.error "Base directory does not exist"
  else if partitions = [] then Except.error "No parquet files found"
  else Except.ok (aggregateCore partitions drop_dirty recheck_qc)

/-- The pre-drop table of `aggregate_ohlcv_v0` (steps 2-4): the partitions
concatenated in sorted path order, sorted by timestamp and deduplicated.
This is the exact table `aggregateCore` hands to QC before any drop. -/
def preTable (partitions : List (String × List Row)) : DataFrame :=
  _deduplicate_df (_sort_by_timestamp
    { columns := canonicalColumns
      rows := ((List.insertionSort nameLe partitions).map Prod.snd).flatten })

/-- Lines 102-106 of `history_v1.download_ohlcv_history_v1`: the effective
start of a run.  `last_ts` is the result of
`_find_last_timestamp_in_pipeline_dir` (the stored cursor; `none` when no
saved data exists).  The saved cursor moves the start only when it is
strictly later than the explicit start. -/
def effective_start_ms (resume : Bool) (start_ms : Int) (last_ts : Option Int) : Int :=
  if resume then
    match last_ts with
    | some x => if start_ms < x then x + 1 else start_ms
    | none => start_ms
  else start_ms

/-- The loop variables of `download_ohlcv_history_v1`. -/
structure LoopState where
  since : Int
  batches : Nat
  rows_total : Nat
  last_ts_overall : Option Int
deriving DecidableEq, Repr

/-- The reason the download loop stopped (one per `break` of the source;
`noMoreResponses` is the modelling artifact of running out of scripted
exchange responses). -/
inductive StopReason
  | reachedEnd
  | reachedMaxBatches
  | emptyChunk
  | lastChunkReachedEnd
  | stalled
  | noMoreResponses
deriving DecidableEq, Repr

/-- Terminal states of the fetch controller. -/
inductive ControllerState
  | DONE
  | ABORTED
deriving DecidableEq, Repr

/-- Spec §4.5 classification of each stop: the stall guard is the abort,
every other exit is a normal completion. -/
def StopReason.finalState : StopReason → ControllerState
  | .stalled => ControllerState.ABORTED
  | _ => ControllerState.DONE

/-- `end_ms is not None and cursor >= end_ms`. -/
def endReached (end_ms : Option Int) (cursor : Int) : Bool :=
  match end_ms with
  | some e => decide (e ≤ cursor)
  | none => false

/-- `max_batches is not None and batches >= max_batches`. -/
def maxBatchesReached (max_batches : Option Nat) (batches : Nat) : Bool :=
  match max_batches with
  | some m => decide (m ≤ batches)
  | none => false

/-- `int(df_chunk["timestamp"].max())` for a non-empty chunk. -/
def maxTs : List Row → Int
  | [] => 0
  | r :: rs => rs.foldl (fun a s => max a s.timestamp) r.timestamp

/-- Result of the download loop: final loop variables, the trace of
`since` values of the fetch requests actually issued (in order), and the
stop reason. -/
structure RunResult where
  final : LoopState
  trace : List Int
  reason : StopReason
deriving DecidableEq, Repr

/-- The `while True` loop of `download_ohlcv_history_v1`.  Each iteration
checks the end bound and the batch cap, then issues one fetch
(`load_and_qc(since=current_since)`, consuming the next scripted response
and recording the request in the trace), and handles the empty-chunk,
end-reached and stall exits in source order before advancing the cursor
to `last_ts_chunk + 1`. -/
def runLoop (end_ms : Option Int) (max_batches : Option Nat) :
    LoopState → List (List Row) → RunResult
  | st, responses =>
    if endReached end_ms st.since then ⟨st, [], StopReason.reachedEnd⟩
    else if maxBatchesReached max_batches st.batches then
      ⟨st, [], StopReason.reachedMaxBatches⟩
    else
      match responses with
      | [] => ⟨st, [], StopReason.noMoreResponses⟩
      | chunk :: rest =>
        if chunk = [] then ⟨st, [st.since], StopReason.emptyChunk⟩
        else
          let last_ts_chunk := maxTs chunk
          let st' : LoopState :=
            { since := st.since
              batches := st.batches + 1
              rows_total := st.rows_total + chunk.length
              last_ts_overall := some (match st.last_ts_overall with
                | none => last_ts_chunk
                | some t => max t last_ts_chunk) }
          if endReached end_ms last_ts_chunk then
            ⟨st', [st.since], StopReason.lastChunkReachedEnd⟩
          else if last_ts_chunk ≤ st.since then ⟨st', [st.since], StopReason.stalled⟩
          else
            let res := runLoop end_ms max_batches { st' with since := last_ts_chunk + 1 } rest
            ⟨res.final, st.since :: res.trace, res.reason⟩

/-- `HistoryDownloadStats` from `history_v1.py`. -/
structure HistoryDownloadStats where
  batches : Nat
  rows_total : Nat
  start_ms_effective : Int
  end_ms_effective : Int
deriving DecidableEq, Repr

/-- A whole run of the downloader: its returned stats plus the observable
fetch trace and stop reason. -/
structure DownloadResult where
  stats : HistoryDownloadStats
  trace : List Int
  reason : StopReason
deriving DecidableEq, Repr

/-- `history_v1.download_ohlcv_history_v1`: compute the effective start
(resume logic), run the loop against the scripted exchange responses, and
assemble the stats (`end_ms_effective` falls back to the effective start
when nothing was downloaded). -/
def download_ohlcv_history_v1 (start_ms : Int) (end_ms : Option Int) (resume : Bool)
    (last_saved_ts : Option Int) (max_batches : Option Nat)
    (responses : List (List Row)) : DownloadResult :=
  let eff := effective_start_ms resume start_ms last_saved_ts
  let r := runLoop end_ms max_batches ⟨eff, 0, 0, none⟩ responses
  { stats :=
      { batches := r.final.batches
        rows_total := r.final.rows_total
        start_ms_effective := eff
        end_ms_effective := r.final.last_ts_overall.getD eff }
    trace := r.trace
    reason := r.reason }

/-! Spec-side definitions.  Each of the following transcribes the words of
the specification (not the source); the theorems below compare the source
embedding against them. -/

/-- Spec-side (§4.3 item 3): the number of all rows participating in any
group sharing the full key, i.e. the rows whose key occurs at least twice
in the table. -/
def dupCountSpec (rows : List Row) : Nat :=
  (rows.filter fun r => decide (2 ≤ countKey rows r.key)).length

/-- Spec-side (§4.3 item 4): every expected grid point strictly between
`prev` and `cur` — the points `prev + j*step` for `j = 1, 2, ...` that are
still `< cur`, in increasing order. -/
def gridBetween (prev cur step : Int) : List Int :=
  (List.range ((cur - prev - 1).toNat / step.toNat)).map fun k : Nat =>
    prev + ((k : Int) + 1) * step

/-- Number of grid points `e, e+step, e+2*step, ...` strictly below `cur`
(the iteration count of the source's fill loop started at `e`). -/
def gridCount (step cur e : Int) : Nat :=
  if e < cur then (cur - e - 1).toNat / step.toNat + 1 else 0

/-- Spec-side (§4.3 item 4): for each adjacent pair of sorted timestamps
with gap greater than the step, all expected grid points strictly between
them. -/
def missingSpec (ts : List Int) (step : Int) : List Int :=
  (ts.zip ts.tail).flatMap fun pc =>
    if step < pc.2 - pc.1 then gridBetween pc.1 pc.2 step else []

/-- Spec-side (§4.6): keep exactly the rows whose index appears in neither
`dirty_price_rows` nor `negative_value_rows`, unchanged and in order. -/
def keepRowsSpec (rows : List Row) (dirty negative : List Nat) : List Row :=
  (rows.enum.filter fun p => decide (p.1 ∉ dirty ∧ p.1 ∉ negative)).map Prod.snd

/-- A concrete contract row used by the concrete-input corollaries. -/
def sampleRow (tf : String) (t : Int) : Row :=
  { exchange := "binance", symbol := "BTC/USDT", timeframe := tf, timestamp := t
    open_ := 1, high := 2, low := 1, close := 2, volume := 3 }

/-- A concrete row violating both OHLC consistency (`low > high`) and the
sign check (`volume < 0`), the spec's own test case for precedence. -/
def dirtyNegRow : Row :=
  { exchange := "binance", symbol := "BTC/USDT", timeframe := "1m", timestamp := 0
    open_ := 1, high := 1, low := 2, close := 1, volume := -1 }

/-! Helper lemmas (shared between claims). -/

theorem endReached_false_of_lt {end_ms : Option Int} {c : Int}
    (h : ∀ e, end_ms = some e → c < e) : endReached end_ms c = false := by
  cases end_ms with
  | none => rfl
  | some e =>
    have := h e rfl
    simp only [endReached, decide_eq_false_iff_not]
    omega

theorem maxBatchesReached_false_of_lt {max_batches : Option Nat} {b : Nat}
    (h : ∀ m, max_batches = some m → b < m) : maxBatchesReached max_batches b = false := by
  cases max_batches with
  | none => rfl
  | some m =>
    have := h m rfl
    simp only [maxBatchesReached, decide_eq_false_iff_not]
    omega

theorem runLoop_trace_head {end_ms : Option Int} {maxB : Option Nat} {st : LoopState}
    (chunk : List Row) (rest : List (List Row))
    (h1 : endReached end_ms st.since = false)
    (h2 : maxBatchesReached maxB st.batches = false) :
    (runLoop end_ms maxB st (chunk :: rest)).trace.head? = some st.since := by
  rw [runLoop]
  simp only [h1, h2, Bool.false_eq_true, if_false]
  split
  · rfl
  · split
    · rfl
    · split
      · rfl
      · rfl

theorem detectAux_length (p : Row → Bool) :
    ∀ (l : List Row) (i : Nat), (detectAux p i l).length = (l.filter p).length := by
  intro l
  induction l with
  | nil => intro i; rfl
  | cons r rs ih =>
    intro i
    by_cases hp : p r = true <;> simp [detectAux, List.filter_cons, hp, ih]

theorem mem_detectAux (p : Row → Bool) :
    ∀ (l : List Row) (i j : Nat),
      j ∈ detectAux p i l ↔ ∃ (k : Nat) (h : k < l.length), j = i + k ∧ p l[k] = true := by
  intro l
  induction l with
  | nil => intro i j; simp [detectAux]
  | cons r rs ih =>
    intro i j
    constructor
    · intro hj
      simp only [detectAux] at hj
      by_cases hp : p r = true
      · rw [if_pos hp] at hj
        rcases List.mem_cons.mp hj with rfl | hj2
        · exact ⟨0, by simp, by omega, by simpa using hp⟩
        · rcases (ih (i + 1) j).mp hj2 with ⟨k, h, rfl, hpk⟩
          exact ⟨k + 1, by simp only [List.length_cons]; omega, by omega, by simpa using hpk⟩
      · rw [if_neg hp] at hj
        rcases (ih (i + 1) j).mp hj with ⟨k, h, rfl, hpk⟩
        exact ⟨k + 1, by simp only [List.length_cons]; omega, by omega, by simpa using hpk⟩
    · rintro ⟨k, h, rfl, hpk⟩
      simp only [detectAux]
      cases k with
      | zero =>
        simp only [List.getElem_cons_zero] at hpk
        rw [if_pos hpk]
        simp
      | succ k =>
        have hk : k < rs.length := by simp only [List.length_cons] at h; omega
        have hmem : i + 1 + k ∈ detectAux p (i + 1) rs :=
          (ih (i + 1) (i + 1 + k)).mpr ⟨k, hk, rfl, by simpa using hpk⟩
        have heq : i + (k + 1) = i + 1 + k := by omega
        rw [heq]
        by_cases hp : p r = true
        · rw [if_pos hp]
          exact List.mem_cons_of_mem _ hmem
        · rw [if_neg hp]
          exact hmem

/-! Claim theorems. -/

/-- C8: `run_qc_v0` is deterministic — two invocations on the same table
produce identical reports (all booleans, counts, index sequences and the
summary string).  The embedded function is pure; the source reads only its
argument and no global state. -/
theorem run_qc_v0_deterministic (t1 t2 : DataFrame) (h : t1 = t2) :
    run_qc_v0 t1 = run_qc_v0 t2 := by
  rw [h]

theorem run_qc_v0_deterministic_witness :
    run_qc_v0 { columns := canonicalColumns, rows := [sampleRow "1m" 0] } =
      run_qc_v0 { columns := canonicalColumns, rows := [sampleRow "1m" 0] } :=
  run_qc_v0_deterministic _ _ rfl

/-- C9: the aggregator fails with the partition-not-found error exactly
when the expected directory is absent or contains no partition files; the
failure is an `Except.error` carrying no table, surfaced to the caller. -/
theorem aggregate_partition_not_found_iff (dirExists : Bool)
    (partitions : List (String × List Row)) (drop_dirty recheck_qc : Bool) :
    (∃ msg, aggregate_ohlcv_v0 dirExists partitions drop_dirty recheck_qc =
        Except.error msg) ↔
      (dirExists = false ∨ partitions = []) := by
  cases dirExists <;> cases partitions <;> simp [aggregate_ohlcv_v0]

/-- C10: normalizing the empty raw batch yields a table with exactly the
nine canonical columns in order (structure passes) but with the pandas
default `object` dtypes, so the dtype check fails on it; on any non-empty
batch the casts run and the dtype check passes. -/
theorem normalize_empty_schema_dtype_gap (ex sym tf : String) :
    _check_structure (normalize_to_contract [] ex sym tf) = true ∧
    _check_dtypes (normalize_to_contract [] ex sym tf) = false ∧
    (run_qc_v0 (normalize_to_contract [] ex sym tf)).structure_ok = true ∧
    (run_qc_v0 (normalize_to_contract [] ex sym tf)).dtype_ok = false ∧
    ∀ (cdl : RawCandle) (rest : List RawCandle),
      _check_dtypes (normalize_to_contract (cdl :: rest) ex sym tf) = true :=
  ⟨rfl, rfl, rfl, rfl, fun _ _ => rfl⟩

/-- C5: if a fetch receives a non-empty batch whose maximum timestamp does
not exceed the current query cursor, the stall guard stops the controller
with the `stalled` reason (the spec's `ABORTED` state) and no further
fetch request is issued: the trace of this iteration is the single
request already made. -/
theorem fetch_stall_guard_aborts (end_ms : Option Int) (maxB : Option Nat)
    (st : LoopState) (chunk : List Row) (rest : List (List Row))
    (hend : ∀ e, end_ms = some e → st.since < e)
    (hmax : ∀ m, maxB = some m → st.batches < m)
    (hne : chunk ≠ [])
    (hstall : maxTs chunk ≤ st.since) :
    (runLoop end_ms maxB st (chunk :: rest)).reason = StopReason.stalled ∧
    (runLoop end_ms maxB st (chunk :: rest)).trace = [st.since] ∧
    StopReason.finalState (runLoop end_ms maxB st (chunk :: rest)).reason =
      ControllerState.ABORTED := by
  have h1 : endReached end_ms st.since = false := endReached_false_of_lt hend
  have h2 : maxBatchesReached maxB st.batches = false := maxBatchesReached_false_of_lt hmax
  have h3 : endReached end_ms (maxTs chunk) = false := by
    refine endReached_false_of_lt fun e he => ?_
    have := hend e he
    omega
  rw [runLoop]
  simp [h1, h2, h3, hne, hstall, StopReason.finalState]

theorem fetch_stall_guard_aborts_witness :
    (runLoop none none ⟨100, 0, 0, none⟩ [[sampleRow "1m" 50]]).reason =
        StopReason.stalled ∧
    (runLoop none none ⟨100, 0, 0, none⟩ [[sampleRow "1m" 50]]).trace = [(100 : Int)] ∧
    StopReason.finalState (runLoop none none ⟨100, 0, 0, none⟩
        [[sampleRow "1m" 50]]).reason = ControllerState.ABORTED :=
  fetch_stall_guard_aborts none none ⟨100, 0, 0, none⟩ [sampleRow "1m" 50] []
    (fun _ he => Option.noConfusion he) (fun _ hm => Option.noConfusion hm)
    (by decide) (by decide)

/-- C1 (counterexample): with resume enabled, stored cursor `X = 5` and
explicit start `5`, the first fetch request uses `since = 5`, not
`max(explicit start, X + 1) = 6`: the bar at timestamp `X` is re-fetched
when the cursor equals the explicit start, because the source only moves
the start when the cursor is strictly later (`last_ts > effective_start_ms`). -/
theorem history_resume_equal_cursor_counterexample :
    (download_ohlcv_history_v1 5 none true (some 5) none [[]]).trace = [(5 : Int)] ∧
    max (5 : Int) (5 + 1) = 6 ∧ (5 : Int) ≠ 6 := by
  refine ⟨?_, by decide, by decide⟩
  rfl

/-- C1 (amended): with resume enabled and stored cursor `X`, the first
fetch request uses `since = X + 1` when `X` is strictly after the explicit
start and `since = explicit start` otherwise; in particular `X` is never
re-fetched when `X` is strictly after the explicit start (but it is
re-fetched when `X` equals the explicit start). -/
theorem history_resume_effective_start_amended (start X : Int) (end_ms : Option Int)
    (maxB : Option Nat) (chunk : List Row) (rest : List (List Row))
    (hend : ∀ e, end_ms = some e → effective_start_ms true start (some X) < e)
    (hmax : ∀ m, maxB = some m → 0 < m) :
    (download_ohlcv_history_v1 start end_ms true (some X) maxB (chunk :: rest)).trace.head? =
        some (effective_start_ms true start (some X)) ∧
    effective_start_ms true start (some X) = (if start < X then X + 1 else start) ∧
    (start < X → X < effective_start_ms true start (some X)) := by
  refine ⟨?_, rfl, ?_⟩
  · exact runLoop_trace_head chunk rest (endReached_false_of_lt hend)
      (maxBatchesReached_false_of_lt hmax)
  · intro h
    show X < (if start < X then X + 1 else start)
    rw [if_pos h]
    omega

theorem history_resume_effective_start_amended_witness :
    (download_ohlcv_history_v1 3 none true (some 10) none [[]]).trace.head? =
        some (effective_start_ms true 3 (some 10)) ∧
    effective_start_ms true 3 (some 10) = (if (3 : Int) < 10 then 10 + 1 else 3) ∧
    ((3 : Int) < 10 → (10 : Int) < effective_start_ms true 3 (some 10)) :=
  history_resume_effective_start_amended 3 10 none none [] []
    (fun _ he => Option.noConfusion he) (fun _ hm => Option.noConfusion hm)

/-- C2: the `duplicates` field counts all rows participating in any group
of two or more rows sharing the full key (pandas `keep=False` semantics);
in particular a table of exactly two rows sharing the full key reports
`duplicates = 2`, not 1. -/
theorem qc_duplicates_counts_all_group_members (df : DataFrame)
    (cols : List (String × Dtype)) (r s : Row) :
    (run_qc_v0 df).duplicates = dupCountSpec df.rows ∧
    (r.key = s.key →
      (run_qc_v0 { columns := cols, rows := [r, s] }).duplicates = 2) := by
  constructor
  · show (_detect_duplicates df).length = dupCountSpec df.rows
    by_cases hdf : df.rows = []
    · simp [_detect_duplicates, hdf, dupCountSpec]
    · simp only [_detect_duplicates, if_neg hdf, dupCountSpec]
      exact detectAux_length _ df.rows 0
  · intro hkey
    show (_detect_duplicates { columns := cols, rows := [r, s] }).length = 2
    have h1 : countKey [r, s] r.key = 2 := by
      simp [countKey, List.countP_cons, hkey]
    have h2 : countKey [r, s] s.key = 2 := by
      simp [countKey, List.countP_cons, hkey]
    simp [_detect_duplicates, detectAux, h1, h2]

theorem qc_duplicates_counts_all_group_members_witness :
    (run_qc_v0 ⟨canonicalColumns, [sampleRow "1m" 0]⟩).duplicates =
        dupCountSpec [sampleRow "1m" 0] ∧
    (run_qc_v0 ⟨canonicalColumns, [sampleRow "1m" 7, sampleRow "1m" 7]⟩).duplicates = 2 :=
  ⟨(qc_duplicates_counts_all_group_members ⟨canonicalColumns, [sampleRow "1m" 0]⟩
      canonicalColumns (sampleRow "1m" 7) (sampleRow "1m" 7)).1,
   (qc_duplicates_counts_all_group_members ⟨canonicalColumns, [sampleRow "1m" 0]⟩
      canonicalColumns (sampleRow "1m" 7) (sampleRow "1m" 7)).2 rfl⟩

/-- C4: a row index belongs to at most one of `negative_values` and
`dirty_price_rows`, with negative taking precedence: a row with any
negative field is listed in `negative_values` and never in
`dirty_price_rows`, even when it also violates OHLC consistency. -/
theorem qc_negative_precedence (df : DataFrame) (i : Nat) :
    (¬(i ∈ _detect_negative_values df ∧ i ∈ _detect_dirty_prices df)) ∧
    (∀ h : i < df.rows.length, rowNegative df.rows[i] = true →
      i ∈ _detect_negative_values df ∧ i ∉ _detect_dirty_prices df) := by
  by_cases hdf : df.rows = []
  · constructor
    · simp [_detect_negative_values, _detect_dirty_prices, hdf]
    · intro h
      rw [hdf] at h
      exact absurd h (by simp)
  · have hneg : ∀ j, j ∈ _detect_negative_values df ↔
        ∃ (k : Nat) (hk : k < df.rows.length), j = k ∧ rowNegative df.rows[k] = true := by
      intro j
      rw [_detect_negative_values, if_neg hdf]
      simpa using mem_detectAux rowNegative df.rows 0 j
    have hdirty : ∀ j, j ∈ _detect_dirty_prices df ↔
        ∃ (k : Nat) (hk : k < df.rows.length), j = k ∧
          (rowDirty df.rows[k] && !rowNegative df.rows[k]) = true := by
      intro j
      rw [_detect_dirty_prices, if_neg hdf]
      simpa using mem_detectAux (fun r => rowDirty r && !rowNegative r) df.rows 0 j
    constructor
    · rintro ⟨h1, h2⟩
      rcases (hneg i).mp h1 with ⟨k, hk, hik, hnegk⟩
      rcases (hdirty i).mp h2 with ⟨k', hk', hik', hdirtyk⟩
      have hkeq : k' = k := by omega
      subst hkeq
      simp [hnegk] at hdirtyk
    · intro h hn
      refine ⟨(hneg i).mpr ⟨i, h, rfl, hn⟩, fun hd => ?_⟩
      rcases (hdirty i).mp hd with ⟨k, hk, hik, hdk⟩
      have : k = i := by omega
      subst this
      simp [hn] at hdk

theorem qc_negative_precedence_witness :
    0 ∈ _detect_negative_values { columns := canonicalColumns, rows := [dirtyNegRow] } ∧
    0 ∉ _detect_dirty_prices { columns := canonicalColumns, rows := [dirtyNegRow] } :=
  (qc_negative_precedence { columns := canonicalColumns, rows := [dirtyNegRow] } 0).2
    (by decide) (by decide)

theorem gridCount_succ (step cur e : Int) (hs : 1 ≤ step) (he : e < cur) :
    gridCount step cur e = gridCount step cur (e + step) + 1 := by
  unfold gridCount
  by_cases h2 : e + step < cur
  · rw [if_pos he, if_pos h2]
    have ha : (cur - e - 1).toNat / step.toNat =
        (cur - (e + step) - 1).toNat / step.toNat + 1 := by
      rw [Nat.div_eq ((cur - e - 1).toNat) step.toNat, if_pos ⟨by omega, by omega⟩]
      have hsub : (cur - e - 1).toNat - step.toNat = (cur - (e + step) - 1).toNat := by omega
      rw [hsub]
    omega
  · rw [if_pos he, if_neg h2]
    have hlt : (cur - e - 1).toNat < step.toNat := by omega
    rw [Nat.div_eq_of_lt hlt]

theorem fillLoop_eq_range (step cur : Int) (hs : 1 ≤ step) :
    ∀ (fuel : Nat) (e : Int), gridCount step cur e ≤ fuel →
      fillLoop step cur e fuel =
        (List.range (gridCount step cur e)).map fun k : Nat => e + (k : Int) * step := by
  intro fuel
  induction fuel with
  | zero =>
    intro e hfuel
    rw [Nat.le_zero.mp hfuel]
    rfl
  | succ fuel ih =>
    intro e hfuel
    by_cases he : e < cur
    · have hgc := gridCount_succ step cur e hs he
      rw [fillLoop, if_pos he, hgc, List.range_succ_eq_map, List.map_cons, List.map_map,
        ih (e + step) (by omega)]
      refine List.cons_eq_cons.mpr ⟨by simp, ?_⟩
      refine (List.map_congr_left fun k _ => ?_).symm
      show e + ((Nat.succ k : Nat) : Int) * step = e + step + (k : Int) * step
      push_cast
      ring
    · have h0 : gridCount step cur e = 0 := by
        unfold gridCount
        rw [if_neg he]
      rw [h0, fillLoop, if_neg he]
      rfl

theorem fillLoop_eq_gridBetween (step prev cur : Int) (hs : 1 ≤ step) :
    fillLoop step cur (prev + step) ((cur - prev).toNat) = gridBetween prev cur step := by
  have hfuel : gridCount step cur (prev + step) ≤ (cur - prev).toNat := by
    unfold gridCount
    by_cases h : prev + step < cur
    · rw [if_pos h]
      have hle := Nat.div_le_self (cur - (prev + step) - 1).toNat step.toNat
      omega
    · rw [if_neg h]
      omega
  rw [fillLoop_eq_range step cur hs _ _ hfuel]
  unfold gridBetween gridCount
  by_cases h : prev + step < cur
  · rw [if_pos h]
    have hdiv : (cur - prev - 1).toNat / step.toNat =
        (cur - (prev + step) - 1).toNat / step.toNat + 1 := by
      rw [Nat.div_eq ((cur - prev - 1).toNat) step.toNat, if_pos ⟨by omega, by omega⟩]
      have hsub : (cur - prev - 1).toNat - step.toNat = (cur - (prev + step) - 1).toNat := by
        omega
      rw [hsub]
    rw [hdiv]
    refine List.map_congr_left fun k _ => ?_
    show (prev + step) + (k : Int) * step = prev + ((k : Int) + 1) * step
    ring
  · rw [if_neg h]
    have hz : (cur - prev - 1).toNat / step.toNat = 0 := Nat.div_eq_of_lt (by omega)
    rw [hz]
    rfl

theorem lookup_pos_of_all_pos :
    ∀ (l : List (String × Int)), (∀ p ∈ l, 1 ≤ p.2) →
      ∀ tf step, l.lookup tf = some step → 1 ≤ step := by
  intro l
  induction l with
  | nil =>
    intro _ tf step h
    simp [List.lookup] at h
  | cons p tl ih =>
    intro hall tf step h
    obtain ⟨k, v⟩ := p
    rw [List.lookup] at h
    cases hk : tf == k with
    | true =>
      rw [hk] at h
      simp only [Option.some.injEq] at h
      rw [← h]
      exact hall (k, v) (List.mem_cons_self _ _)
    | false =>
      rw [hk] at h
      exact ih (fun q hq => hall q (List.mem_cons_of_mem _ hq)) tf step h

theorem timeframe_step_pos {tf : String} {step : Int}
    (h : TIMEFRAME_TO_MS.lookup tf = some step) : 1 ≤ step :=
  lookup_pos_of_all_pos TIMEFRAME_TO_MS (by decide) tf step h

theorem infer_some_of_all (df : DataFrame) (r : Row) (rs : List Row)
    (hrows : df.rows = r :: rs)
    (hall : ∀ s ∈ df.rows, s.timeframe = r.timeframe) :
    _infer_timeframe_ms df = TIMEFRAME_TO_MS.lookup r.timeframe := by
  rw [_infer_timeframe_ms, hrows]
  show (if (rs.all fun s => decide (s.timeframe = r.timeframe)) = true
      then List.lookup r.timeframe TIMEFRAME_TO_MS else none) =
    List.lookup r.timeframe TIMEFRAME_TO_MS
  rw [if_pos]
  exact List.all_eq_true.mpr fun s hs =>
    decide_eq_true (hall s (by rw [hrows]; exact List.mem_cons_of_mem _ hs))

/-- C3: when all rows carry one single timeframe resolving to a known
step, `missing_timestamps` is exactly the expected grid points strictly
between each adjacent pair of sorted timestamps whose gap exceeds the
step (`missingSpec`); when the timeframe is mixed or unknown it is empty;
and on timeframe "1m" with timestamps `[T, T+60000, T+180000]` it is
exactly `[T+120000]`. -/
theorem qc_missing_timestamps_grid (df : DataFrame) (r : Row) (rs : List Row)
    (hrows : df.rows = r :: rs) :
    ((∀ s ∈ df.rows, s.timeframe = r.timeframe) →
      ∀ step, TIMEFRAME_TO_MS.lookup r.timeframe = some step →
        _detect_missing_timestamps df =
          missingSpec (List.insertionSort (fun a b : Int => a ≤ b)
            (df.rows.map (·.timestamp))) step) ∧
    ((∃ s ∈ df.rows, s.timeframe ≠ r.timeframe) → _detect_missing_timestamps df = []) ∧
    (TIMEFRAME_TO_MS.lookup r.timeframe = none → _detect_missing_timestamps df = []) ∧
    (∀ T : Int, df.rows.map (·.timestamp) = [T, T + 60000, T + 180000] →
      (∀ s ∈ df.rows, s.timeframe = "1m") →
      _detect_missing_timestamps df = [T + 120000]) := by
  have hne : df.rows ≠ [] := by
    rw [hrows]
    exact List.cons_ne_nil r rs
  have main : ∀ (_ : ∀ s ∈ df.rows, s.timeframe = r.timeframe)
      (step : Int) (_ : TIMEFRAME_TO_MS.lookup r.timeframe = some step),
      _detect_missing_timestamps df =
        missingSpec (List.insertionSort (fun a b : Int => a ≤ b)
          (df.rows.map (·.timestamp))) step := by
    intro hall step hstep
    have hinf : _infer_timeframe_ms df = some step := by
      rw [infer_some_of_all df r rs hrows hall]
      exact hstep
    have hs1 : 1 ≤ step := timeframe_step_pos hstep
    have hfun : (fun pc : Int × Int =>
        if step < pc.2 - pc.1 then fillLoop step pc.2 (pc.1 + step) ((pc.2 - pc.1).toNat)
        else []) =
        fun pc : Int × Int =>
          if step < pc.2 - pc.1 then gridBetween pc.1 pc.2 step else [] := by
      funext pc
      by_cases hgap : step < pc.2 - pc.1
      · rw [if_pos hgap, if_pos hgap, fillLoop_eq_gridBetween step pc.1 pc.2 hs1]
      · rw [if_neg hgap, if_neg hgap]
    rw [_detect_missing_timestamps, if_neg hne, hinf]
    show ((List.insertionSort (fun a b : Int => a ≤ b) (df.rows.map (·.timestamp))).zip
          (List.insertionSort (fun a b : Int => a ≤ b) (df.rows.map (·.timestamp))).tail).flatMap
        (fun pc : Int × Int =>
          if step < pc.2 - pc.1 then fillLoop step pc.2 (pc.1 + step) ((pc.2 - pc.1).toNat)
          else []) =
      missingSpec (List.insertionSort (fun a b : Int => a ≤ b)
        (df.rows.map (·.timestamp))) step
    rw [hfun]
    rfl
  refine ⟨main, ?_, ?_, ?_⟩
  · rintro ⟨s, hs, hstf⟩
    have hall_false : (rs.all fun s => decide (s.timeframe = r.timeframe)) = false := by
      rcases List.mem_cons.mp (hrows ▸ hs) with rfl | hs2
      · exact absurd rfl hstf
      · refine List.all_eq_false.mpr ⟨s, hs2, ?_⟩
        simp [hstf]
    have hinf : _infer_timeframe_ms df = none := by
      rw [_infer_timeframe_ms, hrows]
      show (if (rs.all fun s => decide (s.timeframe = r.timeframe)) = true
          then List.lookup r.timeframe TIMEFRAME_TO_MS else none) = none
      rw [hall_false]
      rfl
    rw [_detect_missing_timestamps, if_neg hne, hinf]
  · intro hnone
    have hinf : _infer_timeframe_ms df = none := by
      rw [_infer_timeframe_ms, hrows]
      show (if (rs.all fun s => decide (s.timeframe = r.timeframe)) = true
          then List.lookup r.timeframe TIMEFRAME_TO_MS else none) = none
      by_cases hall : (rs.all fun s => decide (s.timeframe = r.timeframe)) = true
      · rw [if_pos hall]
        exact hnone
      · rw [if_neg hall]
    rw [_detect_missing_timestamps, if_neg hne, hinf]
  · intro T hts hall1m
    have hrtf : r.timeframe = "1m" := hall1m r (by rw [hrows]; exact List.mem_cons_self r rs)
    have hallr : ∀ s ∈ df.rows, s.timeframe = r.timeframe := by
      intro s hs
      rw [hall1m s hs, hrtf]
    have hstep : TIMEFRAME_TO_MS.lookup r.timeframe = some 60000 := by
      rw [hrtf]
      rfl
    rw [main hallr 60000 hstep, hts]
    have hsorted : List.insertionSort (fun a b : Int => a ≤ b)
        [T, T + 60000, T + 180000] = [T, T + 60000, T + 180000] := by
      refine List.Sorted.insertionSort_eq ?_
      refine List.sorted_cons.mpr ⟨?_, List.sorted_cons.mpr ⟨?_, List.sorted_singleton _⟩⟩
      · intro b hb
        rcases List.mem_cons.mp hb with rfl | hb
        · omega
        · have := List.mem_singleton.mp hb
          subst this
          omega
      · intro b hb
        have := List.mem_singleton.mp hb
        subst this
        omega
    rw [hsorted]
    show (if (60000 : Int) < T + 60000 - T
          then gridBetween T (T + 60000) 60000 else []) ++
        ((if (60000 : Int) < T + 180000 - (T + 60000)
          then gridBetween (T + 60000) (T + 180000) 60000 else []) ++ []) = [T + 120000]
    rw [if_neg (by omega), if_pos (by omega)]
    have hg : gridBetween (T + 60000) (T + 180000) 60000 = [T + 120000] := by
      unfold gridBetween
      have h1 : (T + 180000 - (T + 60000) - 1).toNat = 119999 := by omega
      have h2 : (119999 : Nat) / (60000 : Int).toNat = 1 := by decide
      have h3 : List.range 1 = [0] := rfl
      rw [h1, h2, h3]
      simp only [List.map_cons, List.map_nil, List.cons.injEq, and_true, Nat.cast_zero]
      ring
    rw [hg]
    rfl

theorem qc_missing_timestamps_grid_witness :
    _detect_missing_timestamps ⟨canonicalColumns,
        [sampleRow "1m" 0, sampleRow "1m" 60000, sampleRow "1m" 180000]⟩ = [(120000 : Int)] :=
  ((qc_missing_timestamps_grid ⟨canonicalColumns,
      [sampleRow "1m" 0, sampleRow "1m" 60000, sampleRow "1m" 180000]⟩
      (sampleRow "1m" 0) [sampleRow "1m" 60000, sampleRow "1m" 180000] rfl).2.2.2 0
    (by decide) (by decide))

theorem dedupAux_sublist : ∀ (l : List Row) (seen), List.Sublist (dedupAux seen l) l := by
  intro l
  induction l with
  | nil => intro seen; exact List.Sublist.refl []
  | cons r rs ih =>
    intro seen
    rw [dedupAux]
    by_cases h : r.key ∈ seen
    · rw [if_pos h]
      exact List.Sublist.cons r (ih seen)
    · rw [if_neg h]
      exact List.Sublist.cons₂ r (ih (r.key :: seen))

theorem dedupAux_key_not_seen :
    ∀ (l : List Row) (seen) (x : Row), x ∈ dedupAux seen l → x.key ∉ seen := by
  intro l
  induction l with
  | nil => intro seen x hx; simp [dedupAux] at hx
  | cons r rs ih =>
    intro seen x hx
    rw [dedupAux] at hx
    by_cases h : r.key ∈ seen
    · rw [if_pos h] at hx
      exact ih seen x hx
    · rw [if_neg h] at hx
      rcases List.mem_cons.mp hx with rfl | hx2
      · exact h
      · exact fun hmem => ih (r.key :: seen) x hx2 (List.mem_cons_of_mem _ hmem)

theorem dedupAux_keys_nodup : ∀ (l : List Row) (seen), ((dedupAux seen l).map Row.key).Nodup := by
  intro l
  induction l with
  | nil => intro seen; simp [dedupAux]
  | cons r rs ih =>
    intro seen
    rw [dedupAux]
    by_cases h : r.key ∈ seen
    · rw [if_pos h]
      exact ih seen
    · rw [if_neg h, List.map_cons]
      refine List.nodup_cons.mpr ⟨?_, ih (r.key :: seen)⟩
      intro hmem
      rcases List.mem_map.mp hmem with ⟨x, hx, hkx⟩
      exact dedupAux_key_not_seen rs (r.key :: seen) x hx (hkx ▸ List.mem_cons_self _ _)

theorem dedupAux_eq_self : ∀ (l : List Row) (seen), (l.map Row.key).Nodup →
    (∀ x ∈ l, x.key ∉ seen) → dedupAux seen l = l := by
  intro l
  induction l with
  | nil => intro seen _ _; rfl
  | cons r rs ih =>
    intro seen hnodup hdisj
    rw [dedupAux, if_neg (hdisj r (List.mem_cons_self r rs))]
    congr 1
    refine ih (r.key :: seen) (List.nodup_cons.mp (by simpa using hnodup)).2 ?_
    intro x hx hmem
    rcases List.mem_cons.mp hmem with heq | hmem2
    · exact (List.nodup_cons.mp (by simpa using hnodup)).1
        (heq ▸ List.mem_map_of_mem Row.key hx)
    · exact hdisj x (List.mem_cons_of_mem _ hx) hmem2

theorem dropRowsFrom_sublist (bad : List Nat) :
    ∀ (l : List Row) (i : Nat), List.Sublist (dropRowsFrom bad i l) l := by
  intro l
  induction l with
  | nil => intro i; exact List.Sublist.refl []
  | cons r rs ih =>
    intro i
    rw [dropRowsFrom]
    by_cases h : i ∈ bad
    · rw [if_pos h]
      exact List.Sublist.cons r (ih (i + 1))
    · rw [if_neg h]
      exact List.Sublist.cons₂ r (ih (i + 1))

theorem dropRowsFrom_nil_bad : ∀ (l : List Row) (i : Nat), dropRowsFrom [] i l = l := by
  intro l
  induction l with
  | nil => intro i; rfl
  | cons r rs ih =>
    intro i
    rw [dropRowsFrom, if_neg (List.not_mem_nil i)]
    rw [ih (i + 1)]

theorem dropRowsFrom_eq_keep (bad : List Nat) :
    ∀ (l : List Row) (i : Nat),
      dropRowsFrom bad i l =
        ((l.enumFrom i).filter fun q => decide (q.1 ∉ bad)).map Prod.snd := by
  intro l
  induction l with
  | nil => intro i; rfl
  | cons r rs ih =>
    intro i
    rw [dropRowsFrom]
    show _ = (((i, r) :: rs.enumFrom (i + 1)).filter fun q => decide (q.1 ∉ bad)).map Prod.snd
    by_cases h : i ∈ bad
    · rw [if_pos h, List.filter_cons]
      have hdec : (decide ((i, r).1 ∉ bad)) = false := by simp [h]
      rw [hdec, if_neg (by simp)]
      exact ih (i + 1)
    · rw [if_neg h, List.filter_cons]
      have hdec : (decide ((i, r).1 ∉ bad)) = true := by simp [h]
      rw [hdec, if_pos rfl, List.map_cons, ih (i + 1)]

theorem dropRowsFrom_all_of_flagged (p : Row → Bool) (bad : List Nat) :
    ∀ (l : List Row) (i : Nat),
      (∀ (k : Nat) (hk : k < l.length), p l[k] = true → (i + k) ∈ bad) →
      ∀ x ∈ dropRowsFrom bad i l, p x = false := by
  intro l
  induction l with
  | nil =>
    intro i _ x hx
    simp [dropRowsFrom] at hx
  | cons r rs ih =>
    intro i hflag x hx
    have hshift : ∀ (k : Nat) (hk : k < rs.length), p rs[k] = true → (i + 1 + k) ∈ bad := by
      intro k hk hp
      have hm := hflag (k + 1) (by simp only [List.length_cons]; omega) (by simpa using hp)
      have heq : i + (k + 1) = i + 1 + k := by omega
      rwa [heq] at hm
    rw [dropRowsFrom] at hx
    by_cases hi : i ∈ bad
    · rw [if_pos hi] at hx
      exact ih (i + 1) hshift x hx
    · rw [if_neg hi] at hx
      rcases List.mem_cons.mp hx with rfl | hx2
      · by_cases hp : p x = true
        · exact absurd (by simpa using hflag 0 (by simp) (by simpa using hp)) hi
        · revert hp
          cases p x <;> simp
      · exact ih (i + 1) hshift x hx2

theorem detectAux_eq_nil (p : Row → Bool) :
    ∀ (l : List Row) (i : Nat), detectAux p i l = [] ↔ ∀ x ∈ l, p x = false := by
  intro l
  induction l with
  | nil => intro i; simp [detectAux]
  | cons r rs ih =>
    intro i
    by_cases hp : p r = true
    · rw [detectAux, if_pos hp]
      constructor
      · intro h
        exact absurd h (List.cons_ne_nil _ _)
      · intro h
        exact absurd (h r (List.mem_cons_self _ _)) (by simp [hp])
    · have hp' : p r = false := by
        revert hp
        cases p r <;> simp
      rw [detectAux, if_neg hp, ih (i + 1)]
      constructor
      · intro h x hx
        rcases List.mem_cons.mp hx with rfl | hx2
        · exact hp'
        · exact h x hx2
      · intro h x hx
        exact h x (List.mem_cons_of_mem _ hx)

theorem mem_badIndices (dirty negative : List Nat) (a : Nat) :
    a ∈ badIndices dirty negative ↔ a ∈ dirty ∨ a ∈ negative := by
  simp [badIndices]

theorem keepRowsSpec_eq_dropRowsFrom (l : List Row) (dirty negative : List Nat) :
    keepRowsSpec l dirty negative = dropRowsFrom (badIndices dirty negative) 0 l := by
  rw [dropRowsFrom_eq_keep]
  show ((l.enumFrom 0).filter fun q => decide (q.1 ∉ dirty ∧ q.1 ∉ negative)).map Prod.snd = _
  congr 1
  refine List.filter_congr fun q _ => ?_
  refine decide_eq_decide.mpr ?_
  rw [mem_badIndices]
  tauto

theorem drop_dirty_rows_rows (df : DataFrame) (rep : QCReport) :
    (_drop_dirty_rows df rep).rows =
      keepRowsSpec df.rows rep.dirty_price_rows rep.negative_values := by
  rw [_drop_dirty_rows]
  by_cases hdf : df.rows = []
  · rw [if_pos hdf, hdf]
    rfl
  · rw [if_neg hdf]
    by_cases hdn : rep.dirty_price_rows = [] ∧ rep.negative_values = []
    · rw [if_pos hdn, keepRowsSpec_eq_dropRowsFrom, hdn.1, hdn.2]
      rw [show badIndices [] [] = [] from rfl, dropRowsFrom_nil_bad]
    · rw [if_neg hdn]
      exact (keepRowsSpec_eq_dropRowsFrom _ _ _).symm

theorem sort_columns (df : DataFrame) : (_sort_by_timestamp df).columns = df.columns := by
  rw [_sort_by_timestamp]
  split <;> rfl

theorem dedup_columns (df : DataFrame) : (_deduplicate_df df).columns = df.columns := by
  rw [_deduplicate_df]
  split
  · rfl
  · split <;> rfl

theorem drop_columns (df : DataFrame) (rep : QCReport) :
    (_drop_dirty_rows df rep).columns = df.columns := by
  rw [_drop_dirty_rows]
  split
  · rfl
  · split <;> rfl

theorem drop_rows_sublist (df : DataFrame) (rep : QCReport) :
    List.Sublist (_drop_dirty_rows df rep).rows df.rows := by
  rw [_drop_dirty_rows]
  split
  · exact List.Sublist.refl _
  · split
    · exact List.Sublist.refl _
    · exact dropRowsFrom_sublist _ df.rows 0

theorem sort_rows_sorted (df : DataFrame) (hcols : df.columns = canonicalColumns) :
    List.Sorted tsLe (_sort_by_timestamp df).rows := by
  have hts : "timestamp" ∈ df.columns.map Prod.fst := by
    rw [hcols]
    decide
  by_cases hnil : df.rows = []
  · rw [_sort_by_timestamp, if_pos (Or.inl hnil), hnil]
    exact List.sorted_nil
  · rw [_sort_by_timestamp, if_neg (not_or.mpr ⟨hnil, fun h => h hts⟩)]
    exact List.sorted_insertionSort tsLe df.rows

theorem dedup_rows_sorted (df : DataFrame) (h : List.Sorted tsLe df.rows) :
    List.Sorted tsLe (_deduplicate_df df).rows := by
  by_cases hnil : df.rows = []
  · rw [_deduplicate_df, if_pos hnil]
    exact h
  · rw [_deduplicate_df, if_neg hnil]
    by_cases hkeys : ∀ c ∈ KEY_COLS, c ∈ df.columns.map Prod.fst
    · rw [if_pos hkeys]
      exact List.Pairwise.sublist (dedupAux_sublist df.rows []) h
    · rw [if_neg hkeys]
      exact h

theorem dedup_rows_keys_nodup (df : DataFrame) (hcols : df.columns = canonicalColumns) :
    (((_deduplicate_df df).rows).map Row.key).Nodup := by
  by_cases hnil : df.rows = []
  · rw [_deduplicate_df, if_pos hnil, hnil]
    simp
  · have hkeys : ∀ c ∈ KEY_COLS, c ∈ df.columns.map Prod.fst := by
      rw [hcols]
      decide
    rw [_deduplicate_df, if_neg hnil, if_pos hkeys]
    exact dedupAux_keys_nodup df.rows []

theorem preTable_columns (parts : List (String × List Row)) :
    (preTable parts).columns = canonicalColumns := by
  rw [preTable, dedup_columns, sort_columns]

theorem preTable_sorted (parts : List (String × List Row)) :
    List.Sorted tsLe (preTable parts).rows :=
  dedup_rows_sorted _ (sort_rows_sorted _ rfl)

theorem preTable_keys_nodup (parts : List (String × List Row)) :
    ((preTable parts).rows.map Row.key).Nodup :=
  dedup_rows_keys_nodup _ ((sort_columns _).trans rfl)

theorem drop_output_clean (df : DataFrame) :
    ∀ x ∈ (_drop_dirty_rows df (run_qc_v0 df)).rows,
      rowNegative x = false ∧ rowDirty x = false := by
  intro x hx
  rw [_drop_dirty_rows] at hx
  by_cases hnil : df.rows = []
  · rw [if_pos hnil, hnil] at hx
    simp at hx
  · rw [if_neg hnil] at hx
    by_cases hdn : (run_qc_v0 df).dirty_price_rows = [] ∧ (run_qc_v0 df).negative_values = []
    · rw [if_pos hdn] at hx
      have hdirty : _detect_dirty_prices df = [] := hdn.1
      have hneg : _detect_negative_values df = [] := hdn.2
      rw [_detect_dirty_prices, if_neg hnil] at hdirty
      rw [_detect_negative_values, if_neg hnil] at hneg
      have h1 := (detectAux_eq_nil _ df.rows 0).mp hdirty x hx
      have h2 := (detectAux_eq_nil _ df.rows 0).mp hneg x hx
      refine ⟨h2, ?_⟩
      rw [h2] at h1
      simpa using h1
    · rw [if_neg hdn] at hx
      have hflag : ∀ (k : Nat) (hk : k < df.rows.length),
          (rowNegative df.rows[k] || rowDirty df.rows[k]) = true →
          (0 + k) ∈ badIndices (run_qc_v0 df).dirty_price_rows
            (run_qc_v0 df).negative_values := by
        intro k hk hp
        rw [mem_badIndices]
        by_cases hnegk : rowNegative df.rows[k] = true
        · right
          show (0 + k) ∈ _detect_negative_values df
          rw [_detect_negative_values, if_neg hnil]
          exact (mem_detectAux rowNegative df.rows 0 (0 + k)).mpr ⟨k, hk, rfl, hnegk⟩
        · left
          have hnegk' : rowNegative df.rows[k] = false := by
            revert hnegk
            cases rowNegative df.rows[k] <;> simp
          have hdirtyk : rowDirty df.rows[k] = true := by
            rw [hnegk'] at hp
            simpa using hp
          show (0 + k) ∈ _detect_dirty_prices df
          rw [_detect_dirty_prices, if_neg hnil]
          exact (mem_detectAux _ df.rows 0 (0 + k)).mpr
            ⟨k, hk, rfl, by simp [hdirtyk, hnegk']⟩
      have hres := dropRowsFrom_all_of_flagged (fun y => rowNegative y || rowDirty y)
        (badIndices (run_qc_v0 df).dirty_price_rows (run_qc_v0 df).negative_values)
        df.rows 0 hflag x hx
      simp only [Bool.or_eq_false_iff] at hres
      exact hres

theorem aggregateCore_df_eq (parts : List (String × List Row)) (rq : Bool) :
    (aggregateCore parts true rq).df =
      _drop_dirty_rows (preTable parts) (run_qc_v0 (preTable parts)) := rfl

theorem aggregateCore_df_columns (parts : List (String × List Row)) (rq : Bool) :
    (aggregateCore parts true rq).df.columns = canonicalColumns := by
  rw [aggregateCore_df_eq, drop_columns, preTable_columns]

theorem aggregateCore_df_sorted (parts : List (String × List Row)) (rq : Bool) :
    List.Sorted tsLe (aggregateCore parts true rq).df.rows := by
  rw [aggregateCore_df_eq]
  exact List.Pairwise.sublist (drop_rows_sublist _ _) (preTable_sorted parts)

theorem aggregateCore_df_keys_nodup (parts : List (String × List Row)) (rq : Bool) :
    ((aggregateCore parts true rq).df.rows.map Row.key).Nodup := by
  rw [aggregateCore_df_eq]
  exact List.Nodup.sublist (List.Sublist.map Row.key (drop_rows_sublist _ _))
    (preTable_keys_nodup parts)

theorem aggregateCore_df_clean (parts : List (String × List Row)) (rq : Bool) :
    ∀ x ∈ (aggregateCore parts true rq).df.rows,
      rowNegative x = false ∧ rowDirty x = false := by
  rw [aggregateCore_df_eq]
  exact drop_output_clean (preTable parts)

theorem aggregateCore_fixed (name : String) (rq' : Bool) (t : DataFrame)
    (hcols : t.columns = canonicalColumns)
    (hsorted : List.Sorted tsLe t.rows)
    (hnodup : (t.rows.map Row.key).Nodup)
    (hclean : ∀ x ∈ t.rows, rowNegative x = false ∧ rowDirty x = false) :
    (aggregateCore [(name, t.rows)] true rq').df = t := by
  obtain ⟨tc, tr⟩ := t
  simp only at hcols hsorted hnodup hclean
  subst hcols
  show (aggregateCore [(name, tr)] true rq').df = DataFrame.mk canonicalColumns tr
  have hpre : preTable [(name, tr)] = DataFrame.mk canonicalColumns tr := by
    rw [preTable]
    have hcomb : DataFrame.mk canonicalColumns
        ((List.insertionSort nameLe [(name, tr)]).map Prod.snd).flatten =
        DataFrame.mk canonicalColumns tr := by
      show DataFrame.mk canonicalColumns (tr ++ []) = DataFrame.mk canonicalColumns tr
      rw [List.append_nil]
    rw [hcomb]
    by_cases hnil : tr = []
    · rw [hnil]
      rfl
    · have hsort : _sort_by_timestamp (DataFrame.mk canonicalColumns tr) =
          DataFrame.mk canonicalColumns tr := by
        rw [_sort_by_timestamp,
          if_neg (not_or.mpr ⟨hnil, fun h =>
            h (show "timestamp" ∈ List.map Prod.fst canonicalColumns by decide)⟩)]
        show DataFrame.mk canonicalColumns (List.insertionSort tsLe tr) =
          DataFrame.mk canonicalColumns tr
        rw [List.Sorted.insertionSort_eq hsorted]
      have hded : _deduplicate_df (DataFrame.mk canonicalColumns tr) =
          DataFrame.mk canonicalColumns tr := by
        rw [_deduplicate_df, if_neg hnil,
          if_pos (show ∀ c ∈ KEY_COLS, c ∈ List.map Prod.fst canonicalColumns by decide)]
        show DataFrame.mk canonicalColumns (dedupAux [] tr) =
          DataFrame.mk canonicalColumns tr
        rw [dedupAux_eq_self tr [] hnodup fun x _ => List.not_mem_nil _]
      rw [hsort, hded]
  rw [aggregateCore_df_eq, hpre]
  by_cases hnil : tr = []
  · rw [_drop_dirty_rows, if_pos hnil]
  · have hdirty : (run_qc_v0 (DataFrame.mk canonicalColumns tr)).dirty_price_rows = [] := by
      show _detect_dirty_prices (DataFrame.mk canonicalColumns tr) = []
      rw [_detect_dirty_prices, if_neg hnil]
      refine (detectAux_eq_nil _ tr 0).mpr fun x hx => ?_
      rw [(hclean x hx).1, (hclean x hx).2]
      rfl
    have hneg : (run_qc_v0 (DataFrame.mk canonicalColumns tr)).negative_values = [] := by
      show _detect_negative_values (DataFrame.mk canonicalColumns tr) = []
      rw [_detect_negative_values, if_neg hnil]
      exact (detectAux_eq_nil _ tr 0).mpr fun x hx => (hclean x hx).1
    rw [_drop_dirty_rows, if_neg hnil, if_pos ⟨hdirty, hneg⟩]

/-- C6: the merge is idempotent — feeding the merged, cleaned output of
`aggregateCore` back in as a single partition drops zero further rows; the
output table is a fixed point of sort + dedup + drop.  The second conjunct
ties `aggregateCore` to `aggregate_ohlcv_v0` on any non-empty discovered
partition list. -/
theorem aggregate_idempotent (parts : List (String × List Row)) (rq rq' : Bool)
    (name : String) :
    (aggregateCore [(name, (aggregateCore parts true rq).df.rows)] true rq').df =
      (aggregateCore parts true rq).df ∧
    ∀ (p : String × List Row) (ps : List (String × List Row)) (dd r2 : Bool),
      aggregate_ohlcv_v0 true (p :: ps) dd r2 = Except.ok (aggregateCore (p :: ps) dd r2) := by
  refine ⟨?_, fun p ps dd r2 => rfl⟩
  exact aggregateCore_fixed name rq' (aggregateCore parts true rq).df
    (aggregateCore_df_columns parts rq) (aggregateCore_df_sorted parts rq)
    (aggregateCore_df_keys_nodup parts rq) (aggregateCore_df_clean parts rq)

/-- C7: with drop-dirty enabled, the aggregator's output keeps exactly the
rows of the pre-drop (sorted, deduplicated) table whose index is in
neither `dirty_price_rows` nor `negative_values` of the single QC report
computed on that pre-drop table (returned unrecomputed as
`qc_before_clean`); all kept rows are unchanged and in order. -/
theorem aggregate_drop_dirty_exact (parts : List (String × List Row)) (rq : Bool) :
    (aggregateCore parts true rq).qc_before_clean = some (run_qc_v0 (preTable parts)) ∧
    (aggregateCore parts true rq).df.rows =
      keepRowsSpec (preTable parts).rows
        (run_qc_v0 (preTable parts)).dirty_price_rows
        (run_qc_v0 (preTable parts)).negative_values := by
  refine ⟨rfl, ?_⟩
  rw [aggregateCore_df_eq]
  exact drop_dirty_rows_rows _ _

end CryptoLab
